import Mathlib

/-!
Verification of the Set card game core: the card model and Set-matching
engine (`set-logic.js`, `deck.js`), the solo board controller's
replace-or-remove policy (`play.js`), and the shared multiplayer board
state machine (`game.js`/lobby `createGame`): the claim transaction, the
replenish-only transaction, game creation and the winner computation.

JavaScript arrays are modelled as Lean lists, the Firebase RTDB `players`
object as an association list `List (String × Player)` (object keys are
unique; theorems that depend on this carry a `Nodup` hypothesis on the
key list), and a conditional RTDB transaction as a function
`Game → Option Game` where `none` models the transform returning
`undefined` (abort: the service writes nothing, the record is unchanged)
and `some g'` models a commit that replaces the record with `g'`.
-/

namespace SetTools

/-- The three colors of a Set card (`deck.js` COLORS). -/
inductive Color
  | red | green | purple
deriving DecidableEq, Repr

/-- The three shapes of a Set card (`deck.js` SHAPES). -/
inductive Shape
  | oval | diamond | squiggle
deriving DecidableEq, Repr

/-- The three fills of a Set card (`deck.js` FILLS); `open'` renders JS `'open'`. -/
inductive Fill
  | solid | striped | open'
deriving DecidableEq, Repr

/-- A card: four independent features (`deck.js` card objects).
`count` is a JS number, modelled as `Nat` (values used are 1, 2, 3). -/
structure Card where
  color : Color
  shape : Shape
  count : Nat
  fill : Fill
deriving DecidableEq, Repr

def COLORS : List Color := [.red, .green, .purple]

def SHAPES : List Shape := [.oval, .diamond, .squiggle]

def COUNTS : List Nat := [1, 2, 3]

def FILLS : List Fill := [.solid, .striped, .open']

/-- Model of `createDeck` from `deck.js`: all 81 cards in fixed nested loop order
(color-major, then shape, then count, then fill). -/
def createDeck : List Card :=
  COLORS.flatMap fun color =>
    SHAPES.flatMap fun shape =>
      COUNTS.flatMap fun count =>
        FILLS.map fun fill => ⟨color, shape, count, fill⟩

/-- Default card used only as the (unreachable) fallback of `List.getD`
lookups into the canonical deck. -/
def defCard : Card := ⟨.red, .oval, 1, .solid⟩

/-- Model of `CANONICAL_DECK[i]` from `game.js`/`lobby.js`: canonical index → card. -/
def cardAt (i : Nat) : Card := createDeck.getD i defCard

/-- Model of `featureValid` from `set-logic.js`: one feature across three cards is
valid iff all-same or all-different.  JS `===`/`!==` on the feature values
is modelled by decidable equality. -/
def featureValid {α : Type} [DecidableEq α] (a b c : α) : Bool :=
  (a == b && b == c) || (!(a == b) && !(b == c) && !(a == c))

/-- Model of `isSet` from `set-logic.js`: all four features valid. -/
def isSet (a b c : Card) : Bool :=
  featureValid a.color b.color c.color &&
  featureValid a.shape b.shape c.shape &&
  featureValid a.count b.count c.count &&
  featureValid a.fill b.fill c.fill

/-- Inner two loops of the `triplets` generator of `set-logic.js`:
all pairs (i, j) with i < j, in lexicographic order. -/
def pairs {α : Type} : List α → List (α × α)
  | [] => []
  | x :: xs => (xs.map fun y => (x, y)) ++ pairs xs

/-- The `triplets` generator of `set-logic.js`: every 3-combination
(indices i < j < k), in lexicographic order of the index triple. -/
def triplets {α : Type} : List α → List (α × α × α)
  | [] => []
  | x :: xs => ((pairs xs).map fun p => (x, p.1, p.2)) ++ triplets xs

/-- Model of `findAllSets` from `set-logic.js`: the triplets that pass `isSet`,
in enumeration order. -/
def findAllSets (cards : List Card) : List (Card × Card × Card) :=
  (triplets cards).filter fun t => isSet t.1 t.2.1 t.2.2

/-- Model of `hasSet` from `set-logic.js`: the same enumeration, short-circuiting
on the first match (`List.any` stops at the first `true`). -/
def hasSet (cards : List Card) : Bool :=
  (triplets cards).any fun t => isSet t.1 t.2.1 t.2.2

/-- Fused counter for the innermost loop: how many `z` in the list
complete `x, y` to a Set.  Used only to evaluate `findAllSets`'s length
on the full deck cheaply; proved equal to the length of the
corresponding filter. -/
def countWithTwo (x y : Card) : List Card → Nat
  | [] => 0
  | z :: zs => (if isSet x y z then 1 else 0) + countWithTwo x y zs

/-- Fused counter for the two inner loops. -/
def countWithOne (x : Card) : List Card → Nat
  | [] => 0
  | y :: ys => countWithTwo x y ys + countWithOne x ys

/-- Fused counter for the full triple loop: `countSets l` is the number
of Sets among the 3-combinations of `l` (proved equal to
`(findAllSets l).length`). -/
def countSets : List Card → Nat
  | [] => 0
  | x :: xs => countWithOne x xs + countSets xs

/-- The unordered combination of cards underlying a returned triple. -/
def comboMultiset (t : Card × Card × Card) : Multiset Card :=
  {t.1, t.2.1, t.2.2}

/-- One JS array destructuring swap `[arr[i], arr[j]] = [arr[j], arr[i]]`
(`shuffle` in `deck.js`); out-of-range indices leave the array unchanged
(unreachable in `shuffle`, whose indices are always in range). -/
def listSwap {α : Type} (l : List α) (i j : Nat) : List α :=
  match l.get? i, l.get? j with
  | some a, some b => (l.set i b).set j a
  | _, _ => l

/-- The Fisher-Yates loop of `shuffle` (`deck.js`): `i` walks from
`arr.length - 1` down to `1`; `rand i` models `Math.floor(Math.random()
* (i + 1))` as an arbitrary value reduced mod `i + 1` into `0..i`. -/
def fisherYatesAux {α : Type} (rand : Nat → Nat) : Nat → List α → List α
  | 0, arr => arr
  | i + 1, arr => fisherYatesAux rand i (listSwap arr (i + 1) (rand (i + 1) % (i + 2)))

/-- Model of `shuffle` from `deck.js`: copies the input (`array.slice()` is value
semantics here) and runs the Fisher-Yates loop on the copy. -/
def shuffle {α : Type} (rand : Nat → Nat) (array : List α) : List α :=
  fisherYatesAux rand (array.length - 1) array

/-- Multiplayer game lifecycle status strings. -/
inductive GameStatus
  | waiting | playing | finished
deriving DecidableEq, Repr

/-- One entry of the shared `players` map.  The `uid` field of
`createGame` is authentication plumbing and is omitted. -/
structure Player where
  name : String
  score : Nat
  connected : Bool
deriving DecidableEq, Repr

/-- The shared Game record at `games/{gameId}` (fields the core state
machine reads or writes; `isPrivate` is lobby-listing plumbing and is
omitted). -/
structure Game where
  status : GameStatus
  maxPlayers : Nat
  hostId : String
  shuffledIndices : List Nat
  deckPointer : Nat
  board : List Nat
  players : List (String × Player)
  startedAt : Option Nat
  finishedAt : Option Nat
  winnerId : Option String
deriving DecidableEq, Repr

/-- Model of `board.map(i => CANONICAL_DECK[i])`. -/
def boardCards (board : List Nat) : List Card := board.map cardAt

/-- Model of `hasSet` applied to a board of canonical indices. -/
def hasSetIdx (board : List Nat) : Bool := hasSet (boardCards board)

/-- Insert into a descending-sorted list (helper for `sortDesc`). -/
def insertDesc (x : Nat) : List Nat → List Nat
  | [] => [x]
  | y :: ys => if y ≤ x then x :: y :: ys else y :: insertDesc x ys

/-- Model of `[...positions].sort((a, b) => b - a)`: sort descending (insertion
sort; any correct descending sort models the JS comparator sort on
numbers). -/
def sortDesc : List Nat → List Nat
  | [] => []
  | x :: xs => insertDesc x (sortDesc xs)

/-- JS array index assignment `arr[pos] = v`: in range it overwrites; at
`pos = arr.length` it appends (this arises in the claim loop only when a
splice has shrunk the board to exactly `pos`).  `pos > arr.length`
(which would create holes in JS) is unreachable in the modelled code and
is mapped to `List.set`'s no-op. -/
def jsArraySet (l : List Nat) (pos v : Nat) : List Nat :=
  if pos = l.length then l ++ [v] else l.set pos v

/-- One iteration of the claimed-positions loop of `attemptClaimSet`
(`game.js`): while the deck pointer is below 81 and the working board
has at most 12 cards, replace the position in place with the next
shuffled index; otherwise splice the position out. -/
def claimStep (deck : List Nat) : List Nat × Nat → Nat → List Nat × Nat
  | (b, ptr), pos =>
    if ptr < 81 ∧ b.length ≤ 12 then
      (jsArraySet b pos (deck.getD ptr 0), ptr + 1)
    else
      (b.eraseIdx pos, ptr)

/-- The full claimed-positions loop: positions are processed
high-index-to-low-index (`sort((a, b) => b - a)`). -/
def claimUpdateBoard (deck : List Nat) (positions : List Nat) (board : List Nat)
    (ptr : Nat) : List Nat × Nat :=
  (sortDesc positions).foldl (claimStep deck) (board, ptr)

/-- Deal `Math.min(3, 81 - ptr)` indices from `shuffledIndices[ptr..]`
onto the end of the board and advance the pointer (the push loops of
`attemptClaimSet` and `ensureSetOnBoard` in `game.js`). -/
def dealThree (deck : List Nat) (b : List Nat) (ptr : Nat) : List Nat × Nat :=
  (b ++ (deck.drop ptr).take (min 3 (81 - ptr)), ptr + min 3 (81 - ptr))

/-- Model of `currentData.players[playerId].score = (score || 0) + 1`: bump the
claiming player's score (missing score is read as 0; scores are `Nat`,
so `score || 0` is the score itself). -/
def bumpScore (players : List (String × Player)) (pid : String) :
    List (String × Player) :=
  players.map fun kv =>
    if kv.1 = pid then (kv.1, { kv.2 with score := kv.2.score + 1 }) else kv

/-- The score the record holds for `pid` (0 when absent). -/
def scoreOf (players : List (String × Player)) (pid : String) : Nat :=
  match players.lookup pid with
  | some pl => pl.score
  | none => 0

/-- One iteration of the winner loop of `attemptClaimSet` (the loop
destructures `const [pid, p] of Object.entries(players)`): a strictly
higher score takes the lead, an equal score voids it (tie). `maxScore`
starts at -1, so it is tracked as an `Int`. -/
def winnerStep (acc : Int × Option String) : String × Player → Int × Option String
  | (pid, p) =>
    if (p.score : Int) > acc.1 then ((p.score : Int), some pid)
    else if (p.score : Int) = acc.1 then (acc.1, none)
    else acc

/-- The winner computation of `attemptClaimSet`: fold the winner loop
over `Object.entries(players)` starting from `maxScore = -1`,
`winnerId = null`. -/
def computeWinner (players : List (String × Player)) : Option String :=
  (players.foldl winnerStep (-1, none)).2

/-- The conditional transform submitted by `attemptClaimSet`
(`game.js`): guards (status, position range, `isSet`, player presence)
abort with `none`; on success the score is bumped, the three positions
are replaced or spliced high-to-low, three more cards are dealt if the
board lost its last Set and the deck is not exhausted, and the game is
finished (status, finish time `now`, winner) when the deck is exhausted
and no Set remains.  The caller always submits exactly three locally
selected positions `p1, p2, p3`. -/
def claimTransform (pid : String) (p1 p2 p3 : Nat) (now : Nat) (g : Game) :
    Option Game :=
  if g.status ≠ GameStatus.playing then none
  else if [p1, p2, p3].any (fun pos => decide (g.board.length ≤ pos)) then none
  else if !(isSet (cardAt (g.board.getD p1 0)) (cardAt (g.board.getD p2 0))
            (cardAt (g.board.getD p3 0))) then none
  else if (g.players.lookup pid).isNone then none
  else
    let players' := bumpScore g.players pid
    let bp := claimUpdateBoard g.shuffledIndices [p1, p2, p3] g.board g.deckPointer
    let bp2 := if ¬ hasSetIdx bp.1 ∧ bp.2 < 81 then
        dealThree g.shuffledIndices bp.1 bp.2
      else bp
    let base : Game :=
      { g with players := players', board := bp2.1, deckPointer := bp2.2 }
    some (if 81 ≤ bp2.2 ∧ ¬ hasSetIdx bp2.1 then
        { base with status := GameStatus.finished, finishedAt := some now,
                    winnerId := computeWinner players' }
      else base)

/-- The conditional transform submitted by `ensureSetOnBoard`
(`game.js`): abort unless the game is playing, the board has no Set and
the deck pointer is below 81; otherwise deal `min(3, 81 - ptr)` more
indices and advance the pointer. -/
def ensureSetOnBoardTransform (g : Game) : Option Game :=
  if g.status ≠ GameStatus.playing then none
  else if hasSetIdx g.board then none
  else if 81 ≤ g.deckPointer then none
  else
    let bp := dealThree g.shuffledIndices g.board g.deckPointer
    some { g with board := bp.1, deckPointer := bp.2 }

/-- The initial-deal loop of `createGame` (`lobby.js`): starting from the
first 12 shuffled indices, extend by `min(3, 81 - ptr)` while the board
has no Set and the pointer is below 81.  The loop advances the pointer
by at least 1 per iteration from at least 12, so 81 units of fuel
strictly exceed the possible iterations and the fuel never runs out. -/
def dealUntilSet (deck : List Nat) : Nat → List Nat → Nat → List Nat × Nat
  | 0, board, ptr => (board, ptr)
  | fuel + 1, board, ptr =>
    if ¬ hasSetIdx board ∧ ptr < 81 then
      dealUntilSet deck fuel (board ++ (deck.drop ptr).take (min 3 (81 - ptr)))
        (ptr + min 3 (81 - ptr))
    else (board, ptr)

/-- The Game record written by `createGame` (`lobby.js`): status
`waiting`, the supplied shuffled permutation, the initial board and
pointer from the initial-deal loop, and the host as sole player with
score 0. -/
def createGameState (shuffledIndices : List Nat) (hostId hostName : String)
    (maxPlayers : Nat) : Game :=
  let bp := dealUntilSet shuffledIndices 81 (shuffledIndices.take 12) 12
  { status := GameStatus.waiting, maxPlayers := maxPlayers, hostId := hostId,
    shuffledIndices := shuffledIndices, deckPointer := bp.2, board := bp.1,
    players := [(hostId, { name := hostName, score := 0, connected := true })],
    startedAt := none, finishedAt := none, winnerId := none }

/-- Model of `replaceCard` from `play.js` (solo): no-op on an empty deck,
otherwise pop the last deck card into the given board slot.  The DOM
element replacement is rendering plumbing and is not modelled. -/
def replaceCard (b : List Card) (deckS : List Card) (i : Nat) :
    List Card × List Card :=
  if deckS.isEmpty then (b, deckS)
  else (b.set i (deckS.getLastD defCard), deckS.dropLast)

/-- Model of `removeCards` from `play.js` (solo): splice out the given board
indices, high to low. -/
def removeCards (b : List Card) (indices : List Nat) : List Card :=
  (sortDesc indices).foldl (fun acc idx => acc.eraseIdx idx) b

/-- Model of `replaceOrRemoveCards` from `play.js` (solo): if the board has at
most 12 cards and the deck at least 3, replace the three matched slots
in place (highest index first, exactly as the `sort((a, b) => b.idx -
a.idx)` loop does); otherwise splice all three out. -/
def replaceOrRemoveCards (b : List Card) (deckS : List Card)
    (indices : List Nat) : List Card × List Card :=
  if b.length ≤ 12 ∧ 3 ≤ deckS.length then
    (sortDesc indices).foldl (fun acc idx => replaceCard acc.1 acc.2 idx) (b, deckS)
  else (removeCards b indices, deckS)

/-- Property that `p` holds the strict highest score in `players`: some entry for `p`
outscores every other player's entry. -/
def uniqueMax (players : List (String × Player)) (p : String) : Prop :=
  ∃ pl, (p, pl) ∈ players ∧ ∀ kv ∈ players, kv.1 ≠ p → kv.2.score < pl.score

/-- The documented record invariant: the board is a duplicate-free
subset of the dealt range `shuffledIndices[0..deckPointer)`. -/
def GameInv (g : Game) : Prop :=
  g.board.Nodup ∧ ∀ x ∈ g.board, x ∈ g.shuffledIndices.take g.deckPointer

/-- The claim's description of the multiplayer removal policy, stated
from the claim's words for refutation: whenever the condition "board
length ≤ 12 and deck has ≥ 3 cards remaining" fails, all 3 claimed
positions (given here already distinct, in range and in descending
order) are simply removed, so the board shrinks by 3. -/
def claimC2MultiplayerStated : Prop :=
  ∀ (deck : List Nat) (a b c : Nat) (board : List Nat) (ptr : Nat),
    b < a → c < b → a < board.length →
    ¬ (board.length ≤ 12 ∧ 3 ≤ 81 - ptr) →
    (claimUpdateBoard deck [a, b, c] board ptr).1.length + 3 = board.length

/-- Concrete playing-state record used by witnesses: identity
permutation, the first 12 indices on the board, one player "p" with
score 0. -/
def gameA : Game :=
  { status := GameStatus.playing, maxPlayers := 4, hostId := "p",
    shuffledIndices := List.range 81, deckPointer := 12,
    board := List.range 12,
    players := [("p", { name := "P", score := 0, connected := true })],
    startedAt := some 1, finishedAt := none, winnerId := none }

/-- Concrete end-of-game record used by witnesses: deck exhausted
(pointer 81), three matching cards on the board, two players with
scores 2 and 0. -/
def gameB : Game :=
  { status := GameStatus.playing, maxPlayers := 4, hostId := "a",
    shuffledIndices := List.range 81, deckPointer := 81,
    board := [0, 1, 2],
    players := [("a", { name := "A", score := 2, connected := true }),
                ("b", { name := "B", score := 0, connected := true })],
    startedAt := some 1, finishedAt := none, winnerId := none }

/-- The record `claimTransform "a" 0 1 2 7` produces from `gameB`:
score bumped to 3, the three board entries spliced (deck exhausted),
game finished at time 7, winner "a". -/
def gameBPost : Game :=
  { status := GameStatus.finished, maxPlayers := 4, hostId := "a",
    shuffledIndices := List.range 81, deckPointer := 81, board := [],
    players := [("a", { name := "A", score := 3, connected := true }),
                ("b", { name := "B", score := 0, connected := true })],
    startedAt := some 1, finishedAt := some 7, winnerId := some "a" }

/-- Concrete set-less playing-state record used by witnesses: board
`[0, 1, 3]` (cards 0, 1, 3 are not a Set), pointer 4. -/
def gameC : Game :=
  { status := GameStatus.playing, maxPlayers := 4, hostId := "p",
    shuffledIndices := List.range 81, deckPointer := 4,
    board := [0, 1, 3],
    players := [("p", { name := "P", score := 0, connected := true })],
    startedAt := some 1, finishedAt := none, winnerId := none }

/-! ## Set-matching engine: symmetry, degenerate triples, search consistency -/

theorem featureValid_eq_true_iff {α : Type} [DecidableEq α] {a b c : α} :
    featureValid a b c = true ↔ ((a = b ∧ b = c) ∨ (a ≠ b ∧ b ≠ c ∧ a ≠ c)) := by
  simp [featureValid, and_assoc]

theorem featureValid_swap12 {α : Type} [DecidableEq α] (a b c : α) :
    featureValid a b c = featureValid b a c := by
  rw [Bool.eq_iff_iff, featureValid_eq_true_iff, featureValid_eq_true_iff]
  constructor
  · rintro (⟨h1, h2⟩ | ⟨h1, h2, h3⟩)
    · exact Or.inl ⟨h1.symm, h1.trans h2⟩
    · exact Or.inr ⟨Ne.symm h1, h3, h2⟩
  · rintro (⟨h1, h2⟩ | ⟨h1, h2, h3⟩)
    · exact Or.inl ⟨h1.symm, h1.trans h2⟩
    · exact Or.inr ⟨Ne.symm h1, h3, h2⟩

theorem featureValid_swap23 {α : Type} [DecidableEq α] (a b c : α) :
    featureValid a b c = featureValid a c b := by
  rw [Bool.eq_iff_iff, featureValid_eq_true_iff, featureValid_eq_true_iff]
  constructor
  · rintro (⟨h1, h2⟩ | ⟨h1, h2, h3⟩)
    · exact Or.inl ⟨h1.trans h2, h2.symm⟩
    · exact Or.inr ⟨h3, Ne.symm h2, h1⟩
  · rintro (⟨h1, h2⟩ | ⟨h1, h2, h3⟩)
    · exact Or.inl ⟨h1.trans h2, h2.symm⟩
    · exact Or.inr ⟨h3, Ne.symm h2, h1⟩

theorem isSet_swap12 (a b c : Card) : isSet a b c = isSet b a c := by
  unfold isSet
  rw [featureValid_swap12 a.color b.color c.color,
    featureValid_swap12 a.shape b.shape c.shape,
    featureValid_swap12 a.count b.count c.count,
    featureValid_swap12 a.fill b.fill c.fill]

theorem isSet_swap23 (a b c : Card) : isSet a b c = isSet a c b := by
  unfold isSet
  rw [featureValid_swap23 a.color b.color c.color,
    featureValid_swap23 a.shape b.shape c.shape,
    featureValid_swap23 a.count b.count c.count,
    featureValid_swap23 a.fill b.fill c.fill]

/-- C5: `isSet` is symmetric: for all cards `a`, `b`, `c` it returns the
same result on every permutation of its three arguments (hence any
permutation of a valid Set triple is still accepted). -/
theorem isSet_symmetric (a b c : Card) :
    isSet a b c = isSet a c b ∧ isSet a b c = isSet b a c ∧
    isSet a b c = isSet b c a ∧ isSet a b c = isSet c a b ∧
    isSet a b c = isSet c b a := by
  refine ⟨isSet_swap23 a b c, isSet_swap12 a b c, ?_, ?_, ?_⟩
  · exact (isSet_swap12 a b c).trans (isSet_swap23 b a c)
  · exact (isSet_swap23 a b c).trans (isSet_swap12 a c b)
  · exact ((isSet_swap12 a b c).trans (isSet_swap23 b a c)).trans
      (isSet_swap12 b c a)

/-- C8: `isSet` accepts the degenerate triple built from one repeated
card — every feature is trivially all-same, and neither `featureValid`
nor `isSet` checks that the three inputs are distinct. -/
theorem isSet_degenerate_triple (a : Card) : isSet a a a = true := by
  simp [isSet, featureValid]

theorem triplets_eq_nil_of_short {α : Type} {l : List α} (h : l.length < 3) :
    triplets l = [] := by
  match l, h with
  | [], _ => rfl
  | [a], _ => rfl
  | [a, b], _ => rfl
  | a :: b :: c :: rest, h => simp at h; omega

/-- C6: the short-circuiting `hasSet` and the exhaustive `findAllSets`
agree on Set existence for every board; in particular on boards of fewer
than 3 cards `findAllSets` is empty and `hasSet` is false. -/
theorem hasSet_iff_findAllSets (cards : List Card) :
    (hasSet cards = true ↔ 0 < (findAllSets cards).length) ∧
    (cards.length < 3 → findAllSets cards = [] ∧ hasSet cards = false) := by
  constructor
  · rw [List.length_pos, Ne, findAllSets, List.filter_eq_nil_iff]
    simp [hasSet, List.any_eq_true]
  · intro h
    have ht : triplets cards = [] := triplets_eq_nil_of_short h
    simp [findAllSets, hasSet, ht]

/-- Witness for C6 at concrete boards: the empty board and a 12-card
board that contains a Set. -/
theorem hasSet_iff_findAllSets_witness :
    (findAllSets [] = [] ∧ hasSet [] = false) ∧
    (hasSet (boardCards (List.range 12)) = true ∧
      0 < (findAllSets (boardCards (List.range 12))).length) :=
  ⟨(hasSet_iff_findAllSets []).2 (by decide),
   by
    have h := (hasSet_iff_findAllSets (boardCards (List.range 12))).1
    exact ⟨by decide, h.mp (by decide)⟩⟩

/-! ## Exhaustive search on the full deck (C7) -/

theorem countWithTwo_eq (x y : Card) (l : List Card) :
    countWithTwo x y l = (l.filter fun z => isSet x y z).length := by
  induction l with
  | nil => rfl
  | cons z zs ih =>
    by_cases h : isSet x y z = true <;>
      simp [countWithTwo, List.filter, h, ih, Nat.add_comm]

theorem countWithOne_eq (x : Card) (l : List Card) :
    countWithOne x l = ((pairs l).filter fun p => isSet x p.1 p.2).length := by
  induction l with
  | nil => rfl
  | cons y ys ih =>
    rw [countWithOne, pairs, List.filter_append, List.length_append, ih,
      countWithTwo_eq, List.filter_map, List.length_map]
    rfl

theorem countSets_eq (l : List Card) : countSets l = (findAllSets l).length := by
  induction l with
  | nil => rfl
  | cons x xs ih =>
    rw [countSets, findAllSets, triplets, List.filter_append, List.length_append,
      ih, countWithOne_eq, List.filter_map, List.length_map, findAllSets]
    rfl

theorem mem_pairs {α : Type} {l : List α} {p : α × α} (h : p ∈ pairs l) :
    p.1 ∈ l ∧ p.2 ∈ l := by
  induction l with
  | nil => simp [pairs] at h
  | cons x xs ih =>
    rw [pairs, List.mem_append] at h
    rcases h with h | h
    · obtain ⟨y, hy, rfl⟩ := List.mem_map.mp h
      exact ⟨List.mem_cons_self x xs, List.mem_cons_of_mem x hy⟩
    · exact ⟨List.mem_cons_of_mem x (ih h).1, List.mem_cons_of_mem x (ih h).2⟩

theorem mem_triplets {α : Type} {l : List α} {t : α × α × α}
    (h : t ∈ triplets l) : t.1 ∈ l ∧ t.2.1 ∈ l ∧ t.2.2 ∈ l := by
  induction l with
  | nil => simp [triplets] at h
  | cons x xs ih =>
    rw [triplets, List.mem_append] at h
    rcases h with h | h
    · obtain ⟨p, hp, rfl⟩ := List.mem_map.mp h
      exact ⟨List.mem_cons_self x xs, List.mem_cons_of_mem x (mem_pairs hp).1,
        List.mem_cons_of_mem x (mem_pairs hp).2⟩
    · exact ⟨List.mem_cons_of_mem x (ih h).1, List.mem_cons_of_mem x (ih h).2.1,
        List.mem_cons_of_mem x (ih h).2.2⟩

theorem pairs_multiset_nodup {α : Type} {l : List α} (h : l.Nodup) :
    ((pairs l).map fun p => ({p.1, p.2} : Multiset α)).Nodup := by
  induction l with
  | nil => simp [pairs]
  | cons x xs ih =>
    obtain ⟨hx, hxs⟩ := List.nodup_cons.mp h
    rw [pairs, List.map_append, List.nodup_append, List.map_map]
    refine ⟨?_, ih hxs, ?_⟩
    · refine List.Nodup.map ?_ hxs
      intro y y' hyy
      simp only [Function.comp_apply] at hyy
      have : ({y} : Multiset α) = {y'} :=
        (Multiset.cons_inj_right x).mp (by simpa using hyy)
      simpa using this
    · intro m hm hm'
      obtain ⟨y, hy, rfl⟩ := List.mem_map.mp hm
      obtain ⟨q, hq, hqe⟩ := List.mem_map.mp hm'
      have hx1 : x ∈ ({q.1, q.2} : Multiset α) := by
        rw [hqe]; simp
      have : x = q.1 ∨ x = q.2 := by simpa using hx1
      rcases this with rfl | rfl
      · exact hx (mem_pairs hq).1
      · exact hx (mem_pairs hq).2

theorem triplets_multiset_nodup {α : Type} {l : List α} (h : l.Nodup) :
    ((triplets l).map fun t => ({t.1, t.2.1, t.2.2} : Multiset α)).Nodup := by
  induction l with
  | nil => simp [triplets]
  | cons x xs ih =>
    obtain ⟨hx, hxs⟩ := List.nodup_cons.mp h
    rw [triplets, List.map_append, List.nodup_append, List.map_map]
    refine ⟨?_, ih hxs, ?_⟩
    · have heq : ((fun t : α × α × α => ({t.1, t.2.1, t.2.2} : Multiset α)) ∘
          fun p : α × α => (x, p.1, p.2)) =
          (fun m => x ::ₘ m) ∘ fun p : α × α => ({p.1, p.2} : Multiset α) := by
        funext p; rfl
      rw [heq, ← List.map_map]
      refine List.Nodup.map ?_ (pairs_multiset_nodup hxs)
      intro m m' hmm
      exact (Multiset.cons_inj_right x).mp hmm
    · intro m hm hm'
      obtain ⟨p, hp, rfl⟩ := List.mem_map.mp hm
      obtain ⟨t, ht, hte⟩ := List.mem_map.mp hm'
      have hx1 : x ∈ ({t.1, t.2.1, t.2.2} : Multiset α) := by
        rw [hte]; simp
      have : x = t.1 ∨ x = t.2.1 ∨ x = t.2.2 := by simpa using hx1
      rcases this with rfl | rfl | rfl
      · exact hx (mem_triplets ht).1
      · exact hx (mem_triplets ht).2.1
      · exact hx (mem_triplets ht).2.2

theorem createDeck_nodup : createDeck.Nodup := by decide

set_option maxRecDepth 200000 in
set_option maxHeartbeats 4000000 in
theorem countSets_createDeck : countSets createDeck = 1080 := by decide

/-- C7: on the full canonical 81-card deck, `findAllSets` returns
exactly 1080 triples, and no two returned triples are the same unordered
combination of cards. -/
theorem findAllSets_createDeck_count :
    (findAllSets createDeck).length = 1080 ∧
    ((findAllSets createDeck).map comboMultiset).Nodup := by
  constructor
  · rw [← countSets_eq]
    exact countSets_createDeck
  · have hsub : List.Sublist ((findAllSets createDeck).map comboMultiset)
        ((triplets createDeck).map comboMultiset) :=
      List.Sublist.map _ (List.filter_sublist _)
    have h := triplets_multiset_nodup createDeck_nodup
    exact List.Nodup.sublist hsub (by simpa [comboMultiset] using h)

/-! ## Fisher-Yates shuffle (C9) -/

theorem multiset_set {α : Type} (l : List α) :
    ∀ (i : Nat) (v : α), ∀ h : i < l.length,
      ((l.set i v : List α) : Multiset α) + {l.get ⟨i, h⟩} =
        (l : Multiset α) + {v} := by
  induction l with
  | nil => intro i v h; simp at h
  | cons x xs ih =>
    intro i v h
    match i with
    | 0 =>
      simp only [List.set, List.get]
      rw [← Multiset.cons_coe, ← Multiset.cons_coe]
      rw [add_comm, Multiset.singleton_add, add_comm, Multiset.singleton_add]
      exact Multiset.cons_swap x v (xs : Multiset α)
    | i + 1 =>
      simp only [List.set, List.get]
      rw [← Multiset.cons_coe, ← Multiset.cons_coe, Multiset.cons_add,
        Multiset.cons_add]
      have hx : i < xs.length := by simpa using h
      rw [ih i v hx]

theorem listSwap_multiset {α : Type} (l : List α) (i j : Nat) :
    ((listSwap l i j : List α) : Multiset α) = (l : Multiset α) := by
  unfold listSwap
  cases ha : l.get? i with
  | none => simp
  | some a =>
    cases hb : l.get? j with
    | none => simp
    | some b =>
      simp only
      obtain ⟨hi, hae⟩ := List.get?_eq_some.mp ha
      obtain ⟨hj, hbe⟩ := List.get?_eq_some.mp hb
      have hj' : j < (l.set i b).length := by simpa using hj
      have h1 := multiset_set (l.set i b) j a hj'
      have h2 := multiset_set l i b hi
      have hgb : (l.set i b).get ⟨j, hj'⟩ = b := by
        rw [List.get_eq_getElem, List.getElem_set]
        split
        · rfl
        · simpa using hbe
      rw [hgb] at h1
      rw [hae] at h2
      have h3 : ((l.set i b).set j a : Multiset α) + {b} =
          (l : Multiset α) + {b} := by
        rw [h1, h2]
      exact add_right_cancel h3

theorem fisherYatesAux_multiset {α : Type} (rand : Nat → Nat) :
    ∀ (i : Nat) (arr : List α),
      ((fisherYatesAux rand i arr : List α) : Multiset α) = (arr : Multiset α) := by
  intro i
  induction i with
  | zero => intro arr; rfl
  | succ i ih =>
    intro arr
    rw [fisherYatesAux, ih, listSwap_multiset]

/-- C9: `shuffle` returns a permutation of its input — same length and
same multiset of elements.  The input itself is untouched: `shuffle`
copies it first (`array.slice()`), which the pure model renders by value
semantics (the function's argument is returned unmodified by
construction). -/
theorem shuffle_perm {α : Type} (rand : Nat → Nat) (array : List α) :
    (shuffle rand array).Perm array ∧
    (shuffle rand array).length = array.length ∧
    ((shuffle rand array : List α) : Multiset α) = (array : Multiset α) := by
  have h : ((shuffle rand array : List α) : Multiset α) = (array : Multiset α) :=
    fisherYatesAux_multiset rand (array.length - 1) array
  have hp : (shuffle rand array).Perm array := Multiset.coe_eq_coe.mp h
  exact ⟨hp, hp.length_eq, h⟩

/-! ## The multiplayer claim transaction: commit guards (C1) -/

theorem lookup_bumpScore (ps : List (String × Player)) (pid : String) :
    (bumpScore ps pid).lookup pid =
      (ps.lookup pid).map fun pl => { pl with score := pl.score + 1 } := by
  induction ps with
  | nil => rfl
  | cons kv rest ih =>
    obtain ⟨k, v⟩ := kv
    simp only [bumpScore, List.map_cons]
    by_cases hk : k = pid
    · subst hk
      rw [if_pos rfl, List.lookup_cons, List.lookup_cons, beq_self_eq_true]
      rfl
    · rw [if_neg hk, List.lookup_cons, List.lookup_cons]
      have hb : (pid == k) = false := by
        cases hpb : pid == k
        · rfl
        · exact absurd (eq_of_beq hpb).symm hk
      rw [hb]
      exact ih

theorem scoreOf_bumpScore (ps : List (String × Player)) (pid : String)
    (h : (ps.lookup pid).isSome = true) :
    scoreOf (bumpScore ps pid) pid = scoreOf ps pid + 1 := by
  obtain ⟨pl, hpl⟩ := Option.isSome_iff_exists.mp h
  unfold scoreOf
  rw [lookup_bumpScore, hpl]
  rfl

/-- C1: the claim transform commits (returns a new record) iff the
record's status is `playing`, all three submitted positions are in range
for the current board, the three cards resolved through the canonical
deck form a Set, and the claiming player is present; and a commit bumps
the claiming player's score by exactly 1.  An abort is the transform
returning `none`: the arbitration service then writes nothing, so the
record is unchanged, with nothing half-applied. -/
theorem claimTransform_commit_iff (g : Game) (pid : String)
    (p1 p2 p3 now : Nat) :
    ((claimTransform pid p1 p2 p3 now g).isSome = true ↔
      (g.status = GameStatus.playing ∧ p1 < g.board.length ∧
       p2 < g.board.length ∧ p3 < g.board.length ∧
       isSet (cardAt (g.board.getD p1 0)) (cardAt (g.board.getD p2 0))
         (cardAt (g.board.getD p3 0)) = true ∧
       (g.players.lookup pid).isSome = true)) ∧
    (∀ g', claimTransform pid p1 p2 p3 now g = some g' →
       scoreOf g'.players pid = scoreOf g.players pid + 1) := by
  constructor
  · unfold claimTransform
    split_ifs with h1 h2 h3 h4
    · simp only [Option.isSome_none, Bool.false_eq_true, false_iff]
      intro hc
      exact h1 hc.1
    · simp only [Option.isSome_none, Bool.false_eq_true, false_iff]
      intro hc
      obtain ⟨-, hp1, hp2, hp3, -, -⟩ := hc
      simp only [List.any_cons, List.any_nil, Bool.or_false, Bool.or_eq_true,
        decide_eq_true_eq] at h2
      rcases h2 with h | h | h <;> omega
    · simp only [Option.isSome_none, Bool.false_eq_true, false_iff]
      intro hc
      rw [hc.2.2.2.2.1] at h3
      simp at h3
    · simp only [Option.isSome_none, Bool.false_eq_true, false_iff]
      intro hc
      have := hc.2.2.2.2.2
      cases ho : g.players.lookup pid with
      | none => rw [ho] at this; simp at this
      | some pl => rw [ho] at h4; simp at h4
    · simp only [Option.isSome_some, true_iff]
      simp only [List.any_cons, List.any_nil, Bool.or_false, Bool.or_eq_true,
        decide_eq_true_eq, not_or] at h2
      refine ⟨not_not.mp h1, by omega, by omega, by omega, ?_, ?_⟩
      · cases hh : isSet (cardAt (g.board.getD p1 0)) (cardAt (g.board.getD p2 0))
          (cardAt (g.board.getD p3 0)) with
        | false => rw [hh] at h3; simp at h3
        | true => rfl
      · cases ho : g.players.lookup pid with
        | none => rw [ho] at h4; simp at h4
        | some pl => rfl
  · intro g' hc
    have hsome : (g.players.lookup pid).isSome = true := by
      unfold claimTransform at hc
      split_ifs at hc with h1 h2 h3 h4
      cases ho : g.players.lookup pid with
      | none => rw [ho] at h4; simp at h4
      | some pl => rfl
    have hps : g'.players = bumpScore g.players pid := by
      unfold claimTransform at hc
      split_ifs at hc
      rw [Option.some_inj] at hc
      split at hc <;> split at hc <;> rw [← hc] <;> rfl
    rw [hps]
    exact scoreOf_bumpScore g.players pid hsome

/-- Witness for C1: on a concrete playing record, claiming positions
0, 1, 2 (a Set) commits and the player's score goes from 0 to 1. -/
theorem claimTransform_commit_iff_witness :
    (claimTransform "p" 0 1 2 5 gameA).isSome = true ∧
    (claimTransform "p" 0 1 2 5 gameA).map (fun g => scoreOf g.players "p") =
      some 1 := by
  have h := claimTransform_commit_iff gameA "p" 0 1 2 5
  have hs : (claimTransform "p" 0 1 2 5 gameA).isSome = true :=
    h.1.mpr (by refine ⟨rfl, ?_, ?_, ?_, ?_, ?_⟩ <;> decide)
  refine ⟨hs, ?_⟩
  obtain ⟨g', hg'⟩ := Option.isSome_iff_exists.mp hs
  have h2 := h.2 g' hg'
  have h3 : scoreOf gameA.players "p" = 0 := by decide
  rw [hg', Option.map_some', h2, h3]

/-! ## The replenish-only transaction (C10) -/

/-- C10: the replenish-only transform commits iff the game is playing,
the board has no Set and the deck pointer is below 81; a commit appends
exactly `min(3, 81 - deckPointer)` indices, in order, from
`shuffledIndices[deckPointer..]`, advances the pointer by that amount,
and changes no other field of the record. -/
theorem ensureSet_transform_spec (g : Game) :
    ((ensureSetOnBoardTransform g).isSome = true ↔
      (g.status = GameStatus.playing ∧ hasSetIdx g.board = false ∧
        g.deckPointer < 81)) ∧
    (∀ g', ensureSetOnBoardTransform g = some g' →
      g'.board = g.board ++ (g.shuffledIndices.drop g.deckPointer).take
          (min 3 (81 - g.deckPointer)) ∧
      g'.deckPointer = g.deckPointer + min 3 (81 - g.deckPointer) ∧
      g'.players = g.players ∧ g'.status = g.status ∧
      g'.hostId = g.hostId ∧ g'.maxPlayers = g.maxPlayers ∧
      g'.shuffledIndices = g.shuffledIndices ∧ g'.startedAt = g.startedAt ∧
      g'.finishedAt = g.finishedAt ∧ g'.winnerId = g.winnerId) := by
  constructor
  · unfold ensureSetOnBoardTransform
    split_ifs with h1 h2 h3
    · simp only [Option.isSome_none, Bool.false_eq_true, false_iff]
      intro hc
      exact h1 hc.1
    · simp only [Option.isSome_none, Bool.false_eq_true, false_iff]
      intro hc
      rw [hc.2.1] at h2
      exact absurd h2 (by simp)
    · simp only [Option.isSome_none, Bool.false_eq_true, false_iff]
      intro hc
      omega
    · simp only [Option.isSome_some, true_iff]
      refine ⟨not_not.mp h1, Bool.not_eq_true _ ▸ h2, by omega⟩
  · intro g' hc
    unfold ensureSetOnBoardTransform at hc
    split_ifs at hc
    rw [Option.some_inj] at hc
    rw [← hc]
    exact ⟨rfl, rfl, rfl, rfl, rfl, rfl, rfl, rfl, rfl, rfl⟩

/-- Witness for C10: on a concrete set-less board `[0, 1, 3]` with
pointer 4, the transform commits, dealing indices 4, 5, 6 and advancing
the pointer to 7. -/
theorem ensureSet_transform_spec_witness :
    (ensureSetOnBoardTransform gameC).map Game.board = some [0, 1, 3, 4, 5, 6] ∧
    (ensureSetOnBoardTransform gameC).map Game.deckPointer = some 7 := by
  have h := ensureSet_transform_spec gameC
  have hs : (ensureSetOnBoardTransform gameC).isSome = true :=
    h.1.mpr (by refine ⟨rfl, ?_, ?_⟩ <;> decide)
  obtain ⟨g', hg'⟩ := Option.isSome_iff_exists.mp hs
  have h2 := h.2 g' hg'
  constructor
  · rw [hg', Option.map_some', h2.1]
    decide
  · rw [hg', Option.map_some', h2.2.1]
    decide

/-! ## Termination and winner computation (C3) -/

theorem assoc_unique {l : List (String × Player)}
    (hnd : (l.map Prod.fst).Nodup) {p : String} {a b : Player}
    (ha : (p, a) ∈ l) (hb : (p, b) ∈ l) : a = b := by
  induction l with
  | nil => simp at ha
  | cons kv rest ih =>
    rw [List.map_cons, List.nodup_cons] at hnd
    rcases List.mem_cons.mp ha with h1 | h1 <;>
      rcases List.mem_cons.mp hb with h2 | h2
    · simpa using h1.trans h2.symm
    · exfalso
      apply hnd.1
      have h3 : p ∈ rest.map Prod.fst := List.mem_map_of_mem Prod.fst h2
      rw [← h1]
      exact h3
    · exfalso
      apply hnd.1
      have h3 : p ∈ rest.map Prod.fst := List.mem_map_of_mem Prod.fst h1
      rw [← h2]
      exact h3
    · exact ih hnd.2 h1 h2

theorem uniqueMax_perm {l l' : List (String × Player)} (hp : l.Perm l')
    (p : String) : uniqueMax l p ↔ uniqueMax l' p := by
  unfold uniqueMax
  constructor <;> rintro ⟨pl, hm, hb⟩
  · exact ⟨pl, hp.mem_iff.mp hm, fun kv hkv => hb kv (hp.mem_iff.mpr hkv)⟩
  · exact ⟨pl, hp.mem_iff.mpr hm, fun kv hkv => hb kv (hp.mem_iff.mp hkv)⟩

theorem bumpScore_keys (ps : List (String × Player)) (pid : String) :
    (bumpScore ps pid).map Prod.fst = ps.map Prod.fst := by
  induction ps with
  | nil => rfl
  | cons kv rest ih =>
    by_cases h : kv.1 = pid <;> simp [bumpScore, h] <;>
      simpa [bumpScore] using ih

theorem winnerFold_spec :
    ∀ (l : List (String × Player)), (l.map Prod.fst).Nodup →
    (∀ kv ∈ l, (kv.2.score : Int) ≤ (l.foldl winnerStep (-1, none)).1) ∧
    (l = [] → l.foldl winnerStep (-1, none) = (-1, none)) ∧
    (l ≠ [] → ∃ kv ∈ l, (kv.2.score : Int) = (l.foldl winnerStep (-1, none)).1) ∧
    (∀ p, computeWinner l = some p ↔ uniqueMax l p) := by
  intro l
  induction l using List.reverseRecOn with
  | nil =>
    intro _
    refine ⟨by simp, fun _ => rfl, by simp, ?_⟩
    intro p
    constructor
    · intro h
      simp [computeWinner, List.foldl_nil] at h
    · rintro ⟨pl, hm, -⟩
      simp at hm
  | append_singleton l x ih =>
    intro hnd
    obtain ⟨xk, xv⟩ := x
    rw [List.map_append, List.nodup_append] at hnd
    have hndl : (l.map Prod.fst).Nodup := hnd.1
    have hxl : xk ∉ l.map Prod.fst := fun h => hnd.2.2 h (by simp)
    obtain ⟨ih1, ih2, ih3, ih4⟩ := ih hndl
    have hfold : (l ++ [(xk, xv)]).foldl winnerStep (-1, none) =
        winnerStep (l.foldl winnerStep (-1, none)) (xk, xv) := by
      rw [List.foldl_append]
      rfl
    have hCW : computeWinner (l ++ [(xk, xv)]) =
        (winnerStep (l.foldl winnerStep (-1, none)) (xk, xv)).2 := by
      unfold computeWinner
      rw [hfold]
    have hxnn : (0 : Int) ≤ (xv.score : Int) := Int.natCast_nonneg _
    rcases lt_trichotomy (xv.score : Int) (l.foldl winnerStep (-1, none)).1
      with hlt | heq | hgt
    · -- the appended entry scores strictly below the running max
      have hws : winnerStep (l.foldl winnerStep (-1, none)) (xk, xv) =
          l.foldl winnerStep (-1, none) := by
        simp only [winnerStep]
        rw [if_neg (by omega), if_neg (by omega)]
      have hlne : l ≠ [] := by
        intro h
        have h2 := ih2 h
        rw [h2] at hlt
        have hlt' : (xv.score : Int) < -1 := hlt
        omega
      obtain ⟨⟨k0, v0⟩, hkv₀, hs₀⟩ := ih3 hlne
      refine ⟨?_, fun h => absurd h (by simp), ?_, ?_⟩
      · intro kv hkv
        rw [hfold, hws]
        rcases List.mem_append.mp hkv with h' | h'
        · exact ih1 kv h'
        · have hx : kv = (xk, xv) := by simpa using h'
          rw [hx]
          exact le_of_lt hlt
      · intro _
        refine ⟨(k0, v0), List.mem_append_left _ hkv₀, ?_⟩
        rw [hfold, hws]
        exact hs₀
      · intro p
        rw [hCW, hws]
        constructor
        · intro h
          obtain ⟨pl, hm, hb⟩ := (ih4 p).mp h
          have hple : (pl.score : Int) ≤ (l.foldl winnerStep (-1, none)).1 :=
            ih1 (p, pl) hm
          have hpl_eq : (pl.score : Int) = (l.foldl winnerStep (-1, none)).1 := by
            rcases eq_or_ne k0 p with hk | hk
            · subst hk
              have := assoc_unique hndl hm hkv₀
              rw [this]
              exact hs₀
            · have hsc := hb (k0, v0) hkv₀ hk
              omega
          refine ⟨pl, List.mem_append_left _ hm, ?_⟩
          intro kv hkv hkne
          rcases List.mem_append.mp hkv with h' | h'
          · exact hb kv h' hkne
          · have hx : kv = (xk, xv) := by simpa using h'
            rw [hx]
            show xv.score < pl.score
            omega
        · rintro ⟨pl, hm, hb⟩
          have hm' : (p, pl) ∈ l := by
            rcases List.mem_append.mp hm with h' | h'
            · exact h'
            · exfalso
              have hx : p = xk ∧ pl = xv := by simpa using h'
              obtain ⟨rfl, rfl⟩ := hx
              have hk0 : k0 ≠ p := by
                intro h
                apply hxl
                rw [← h]
                exact List.mem_map_of_mem Prod.fst hkv₀
              have hsc := hb (k0, v0) (List.mem_append_left _ hkv₀) hk0
              omega
          exact (ih4 p).mpr ⟨pl, hm',
            fun kv hkv hkne => hb kv (List.mem_append_left _ hkv) hkne⟩
    · -- the appended entry ties the running max: the lead is voided
      have hws : winnerStep (l.foldl winnerStep (-1, none)) (xk, xv) =
          ((l.foldl winnerStep (-1, none)).1, none) := by
        simp only [winnerStep]
        rw [if_neg (by omega), if_pos heq]
      have hlne : l ≠ [] := by
        intro h
        have h2 := ih2 h
        rw [h2] at heq
        have heq' : (xv.score : Int) = -1 := heq
        omega
      obtain ⟨⟨k0, v0⟩, hkv₀, hs₀⟩ := ih3 hlne
      refine ⟨?_, fun h => absurd h (by simp), ?_, ?_⟩
      · intro kv hkv
        rw [hfold, hws]
        rcases List.mem_append.mp hkv with h' | h'
        · exact ih1 kv h'
        · have hx : kv = (xk, xv) := by simpa using h'
          rw [hx]
          show (xv.score : Int) ≤ (l.foldl winnerStep (-1, none)).1
          omega
      · intro _
        refine ⟨(k0, v0), List.mem_append_left _ hkv₀, ?_⟩
        rw [hfold, hws]
        exact hs₀
      · intro p
        rw [hCW, hws]
        constructor
        · intro h
          simp at h
        · rintro ⟨pl, hm, hb⟩
          exfalso
          rcases List.mem_append.mp hm with h' | h'
          · have hxkp : xk ≠ p := by
              intro h
              apply hxl
              rw [h]
              exact List.mem_map_of_mem Prod.fst h'
            have hsc : xv.score < pl.score :=
              hb (xk, xv) (List.mem_append_right _ (by simp)) hxkp
            have hple : (pl.score : Int) ≤ (l.foldl winnerStep (-1, none)).1 :=
              ih1 (p, pl) h'
            omega
          · have hx : p = xk ∧ pl = xv := by simpa using h'
            obtain ⟨rfl, rfl⟩ := hx
            have hk0 : k0 ≠ p := by
              intro h
              apply hxl
              rw [← h]
              exact List.mem_map_of_mem Prod.fst hkv₀
            have hsc := hb (k0, v0) (List.mem_append_left _ hkv₀) hk0
            omega
    · -- the appended entry takes the lead
      have hws : winnerStep (l.foldl winnerStep (-1, none)) (xk, xv) =
          ((xv.score : Int), some xk) := by
        simp only [winnerStep]
        rw [if_pos hgt]
      refine ⟨?_, fun h => absurd h (by simp), ?_, ?_⟩
      · intro kv hkv
        rw [hfold, hws]
        rcases List.mem_append.mp hkv with h' | h'
        · have := ih1 kv h'
          show (kv.2.score : Int) ≤ (xv.score : Int)
          omega
        · have hx : kv = (xk, xv) := by simpa using h'
          rw [hx]
      · intro _
        refine ⟨(xk, xv), List.mem_append_right _ (by simp), ?_⟩
        rw [hfold, hws]
      · intro p
        rw [hCW, hws]
        constructor
        · intro h
          have hpx : xk = p := by simpa using h
          subst hpx
          refine ⟨xv, List.mem_append_right _ (by simp), ?_⟩
          intro kv hkv hkne
          rcases List.mem_append.mp hkv with h' | h'
          · have := ih1 kv h'
            show kv.2.score < xv.score
            omega
          · exfalso
            have hx : kv = (xk, xv) := by simpa using h'
            apply hkne
            rw [hx]
        · rintro ⟨pl, hm, hb⟩
          have hpxk : p = xk := by
            by_contra hne
            have hm' : (p, pl) ∈ l := by
              rcases List.mem_append.mp hm with h' | h'
              · exact h'
              · exfalso
                have hx : p = xk ∧ pl = xv := by simpa using h'
                exact hne hx.1
            have hsc : xv.score < pl.score :=
              hb (xk, xv) (List.mem_append_right _ (by simp))
                (fun h => hne h.symm)
            have hple : (pl.score : Int) ≤ (l.foldl winnerStep (-1, none)).1 :=
              ih1 (p, pl) hm'
            omega
          rw [hpxk]

theorem computeWinner_perm {l l' : List (String × Player)}
    (hnd : (l.map Prod.fst).Nodup) (hp : l.Perm l') :
    computeWinner l' = computeWinner l := by
  have hnd' : (l'.map Prod.fst).Nodup := ((hp.map Prod.fst).nodup_iff).mp hnd
  have hch := (winnerFold_spec l hnd).2.2.2
  have hch' := (winnerFold_spec l' hnd').2.2.2
  cases hw : computeWinner l with
  | some p =>
    exact (hch' p).mpr ((uniqueMax_perm hp p).mp ((hch p).mp hw))
  | none =>
    cases hw' : computeWinner l' with
    | none => rfl
    | some q =>
      have := (hch q).mpr ((uniqueMax_perm hp q).mpr ((hch' q).mp hw'))
      rw [hw] at this
      exact absurd this (by simp)

/-- C3: when a committed claim leaves the deck pointer at 81 and a board
with no Set, the transform finishes the game: status becomes `finished`,
`finishedAt` is stamped with the transaction time, and `winnerId` is the
player whose score is strictly greater than every other player's; when
two or more players tie for the highest score the winner is `none` —
and the computed winner is independent of the iteration order over the
players map. -/
theorem claimTransform_finish_winner (g : Game) (pid : String)
    (p1 p2 p3 now : Nat) (hnd : (g.players.map Prod.fst).Nodup) (g' : Game)
    (hc : claimTransform pid p1 p2 p3 now g = some g')
    (hp : 81 ≤ g'.deckPointer) (hns : hasSetIdx g'.board = false) :
    g'.status = GameStatus.finished ∧ g'.finishedAt = some now ∧
    g'.winnerId = computeWinner g'.players ∧
    (∀ p, g'.winnerId = some p ↔ uniqueMax g'.players p) ∧
    ((¬ ∃ p, uniqueMax g'.players p) → g'.winnerId = none) ∧
    (∀ ps', g'.players.Perm ps' → computeWinner ps' = computeWinner g'.players) := by
  have hnd' : (g'.players.map Prod.fst).Nodup := by
    have hps : g'.players = bumpScore g.players pid := by
      unfold claimTransform at hc
      split_ifs at hc
      rw [Option.some_inj] at hc
      split at hc <;> split at hc <;> rw [← hc] <;> rfl
    rw [hps, bumpScore_keys]
    exact hnd
  have hmain : g'.status = GameStatus.finished ∧ g'.finishedAt = some now ∧
      g'.winnerId = computeWinner g'.players := by
    unfold claimTransform at hc
    split_ifs at hc
    rw [Option.some_inj] at hc
    split at hc <;> split at hc <;> rename_i hcond <;> rw [← hc] at hp hns ⊢
    · exact ⟨rfl, rfl, rfl⟩
    · exact absurd ⟨hp, by simp [hns]⟩ hcond
    · exact ⟨rfl, rfl, rfl⟩
    · exact absurd ⟨hp, by simp [hns]⟩ hcond
  have hch := (winnerFold_spec g'.players hnd').2.2.2
  refine ⟨hmain.1, hmain.2.1, hmain.2.2, ?_, ?_, ?_⟩
  · intro p
    rw [hmain.2.2]
    exact hch p
  · intro hno
    cases hw : g'.winnerId with
    | none => rfl
    | some p =>
      exfalso
      apply hno
      refine ⟨p, (hch p).mp ?_⟩
      rw [← hmain.2.2]
      exact hw
  · intro ps' hperm
    exact computeWinner_perm hnd' hperm

/-- Witness for C3: on a concrete final claim from `gameB` (deck
exhausted, scores 3 and 0 after the claim), the committed record is
finished and names the strict leader "a" as winner, via the strict-max
characterisation. -/
theorem claimTransform_finish_winner_witness :
    gameBPost.status = GameStatus.finished ∧ gameBPost.winnerId = some "a" := by
  have hc : claimTransform "a" 0 1 2 7 gameB = some gameBPost := by decide
  have h := claimTransform_finish_winner gameB "a" 0 1 2 7 (by decide)
    gameBPost hc (by decide) (by decide)
  refine ⟨h.1, ?_⟩
  exact (h.2.2.2.1 "a").mpr ⟨⟨"A", 3, true⟩, by decide, by decide⟩

/-! ## Replace-or-remove policy after a matched triple (C2) -/

theorem sortDesc_sorted3 {a b c : Nat} (hba : b ≤ a) (hcb : c ≤ b) :
    sortDesc [a, b, c] = [a, b, c] := by
  simp [sortDesc, insertDesc, hba, hcb]

theorem getD_set_self {α : Type} (l : List α) :
    ∀ (i : Nat) (v d : α), i < l.length → (l.set i v).getD i d = v := by
  induction l with
  | nil =>
    intro i v d h
    simp at h
  | cons x xs ih =>
    intro i v d h
    match i with
    | 0 => rfl
    | i + 1 =>
      rw [List.set_cons_succ, List.getD_cons_succ]
      exact ih i v d (by simpa using h)

theorem getD_set_ne {α : Type} (l : List α) :
    ∀ (i j : Nat) (v d : α), i ≠ j → (l.set i v).getD j d = l.getD j d := by
  induction l with
  | nil =>
    intro i j v d h
    rfl
  | cons x xs ih =>
    intro i j v d h
    match i, j with
    | 0, 0 => exact absurd rfl h
    | 0, j + 1 => rw [List.set_cons_zero, List.getD_cons_succ, List.getD_cons_succ]
    | i + 1, 0 => rw [List.set_cons_succ, List.getD_cons_zero, List.getD_cons_zero]
    | i + 1, j + 1 =>
      rw [List.set_cons_succ, List.getD_cons_succ, List.getD_cons_succ]
      exact ih i j v d (by omega)

theorem jsArraySet_lt {l : List Nat} {pos : Nat} (v : Nat) (h : pos < l.length) :
    jsArraySet l pos v = l.set pos v := by
  unfold jsArraySet
  rw [if_neg (by omega)]

theorem length_eraseIdx_lt {α : Type} {l : List α} {i : Nat} (h : i < l.length) :
    (l.eraseIdx i).length = l.length - 1 := by
  rw [List.length_eraseIdx, if_pos h]

theorem replaceCard_of_ne_nil {b dC : List Card} {i : Nat} (h : dC ≠ []) :
    replaceCard b dC i = (b.set i (dC.getLastD defCard), dC.dropLast) := by
  cases dC with
  | nil => exact absurd rfl h
  | cons x xs => rfl

/-- C2 counterexample: the claim's uniform all-or-nothing policy is
false for the multiplayer claim transform.  At board length 13 with
plenty of deck (pointer 13), the claim prescribes removing all 3
positions (board shrinks to 10), but the per-position loop splices only
the first position and then replaces the other two in place, leaving a
12-card board. -/
theorem claimC2MultiplayerStated_false : ¬ claimC2MultiplayerStated := by
  intro h
  have hx := h (List.range 81) 2 1 0 (List.range 13) 13 (by decide) (by decide)
    (by decide) (by decide)
  exact absurd hx (by decide)

/-- C2 (amended): in the solo controller a matched triple is replaced in
place iff the board has at most 12 cards and the deck at least 3,
otherwise all 3 positions are removed (the condition is checked once).
In the multiplayer claim transform the decision is per position,
processed high-index-to-low-index over the working board: a position is
replaced in place iff at its turn the deck pointer is below 81 and the
working board has at most 12 cards, else it is spliced out; hence all 3
are replaced when the board has ≤ 12 cards and the pointer is ≤ 78, and
all 3 are removed when the board has ≥ 15 cards or the pointer is at 81,
with mixed outcomes in between. -/
theorem replace_remove_policy_amended
    (bC dC : List Card) (i1 i2 i3 : Nat)
    (hi12 : i2 < i1) (hi23 : i3 < i2) (hi1 : i1 < bC.length)
    (deck board : List Nat) (ptr : Nat) (q1 q2 q3 : Nat)
    (hq12 : q2 < q1) (hq23 : q3 < q2) (hq1 : q1 < board.length) :
    ((bC.length ≤ 12 ∧ 3 ≤ dC.length →
      (replaceOrRemoveCards bC dC [i1, i2, i3]).1.length = bC.length ∧
      (replaceOrRemoveCards bC dC [i1, i2, i3]).2.length = dC.length - 3 ∧
      (replaceOrRemoveCards bC dC [i1, i2, i3]).1.getD i1 defCard =
        dC.getLastD defCard ∧
      (replaceOrRemoveCards bC dC [i1, i2, i3]).1.getD i2 defCard =
        dC.dropLast.getLastD defCard ∧
      (replaceOrRemoveCards bC dC [i1, i2, i3]).1.getD i3 defCard =
        dC.dropLast.dropLast.getLastD defCard ∧
      (∀ k, k ≠ i1 → k ≠ i2 → k ≠ i3 →
        (replaceOrRemoveCards bC dC [i1, i2, i3]).1.getD k defCard =
          bC.getD k defCard)) ∧
     (¬ (bC.length ≤ 12 ∧ 3 ≤ dC.length) →
      (replaceOrRemoveCards bC dC [i1, i2, i3]).1.length + 3 = bC.length)) ∧
    ((board.length ≤ 12 ∧ ptr + 3 ≤ 81 →
      (claimUpdateBoard deck [q1, q2, q3] board ptr).1.length = board.length ∧
      (claimUpdateBoard deck [q1, q2, q3] board ptr).2 = ptr + 3 ∧
      (claimUpdateBoard deck [q1, q2, q3] board ptr).1.getD q1 0 =
        deck.getD ptr 0 ∧
      (claimUpdateBoard deck [q1, q2, q3] board ptr).1.getD q2 0 =
        deck.getD (ptr + 1) 0 ∧
      (claimUpdateBoard deck [q1, q2, q3] board ptr).1.getD q3 0 =
        deck.getD (ptr + 2) 0 ∧
      (∀ k, k ≠ q1 → k ≠ q2 → k ≠ q3 →
        (claimUpdateBoard deck [q1, q2, q3] board ptr).1.getD k 0 =
          board.getD k 0)) ∧
     (15 ≤ board.length ∨ 81 ≤ ptr →
      (claimUpdateBoard deck [q1, q2, q3] board ptr).1.length + 3 =
        board.length ∧
      (claimUpdateBoard deck [q1, q2, q3] board ptr).2 = ptr)) := by
  have hsorti : sortDesc [i1, i2, i3] = [i1, i2, i3] :=
    sortDesc_sorted3 (Nat.le_of_lt hi12) (Nat.le_of_lt hi23)
  have hsortq : sortDesc [q1, q2, q3] = [q1, q2, q3] :=
    sortDesc_sorted3 (Nat.le_of_lt hq12) (Nat.le_of_lt hq23)
  refine ⟨⟨?_, ?_⟩, ?_, ?_⟩
  · -- solo, replace-in-place branch
    rintro ⟨hb12, hd3⟩
    have h0 : dC ≠ [] := by
      intro h
      rw [h] at hd3
      simp at hd3
    have h1 : dC.dropLast ≠ [] :=
      List.length_pos.mp (by rw [List.length_dropLast]; omega)
    have h2 : dC.dropLast.dropLast ≠ [] :=
      List.length_pos.mp (by rw [List.length_dropLast, List.length_dropLast]; omega)
    have hfold : replaceOrRemoveCards bC dC [i1, i2, i3] =
        (((bC.set i1 (dC.getLastD defCard)).set i2
            (dC.dropLast.getLastD defCard)).set i3
            (dC.dropLast.dropLast.getLastD defCard),
          dC.dropLast.dropLast.dropLast) := by
      unfold replaceOrRemoveCards
      rw [if_pos ⟨hb12, hd3⟩, hsorti]
      simp only [List.foldl_cons, List.foldl_nil]
      rw [replaceCard_of_ne_nil h0]
      dsimp only
      rw [replaceCard_of_ne_nil h1]
      dsimp only
      rw [replaceCard_of_ne_nil h2]
    rw [hfold]
    dsimp only
    refine ⟨by simp, by simp [List.length_dropLast]; omega, ?_, ?_, ?_, ?_⟩
    · rw [getD_set_ne _ _ _ _ _ (by omega), getD_set_ne _ _ _ _ _ (by omega),
        getD_set_self _ _ _ _ hi1]
    · rw [getD_set_ne _ _ _ _ _ (by omega),
        getD_set_self _ _ _ _ (by simp; omega)]
    · rw [getD_set_self _ _ _ _ (by simp; omega)]
    · intro k hk1 hk2 hk3
      rw [getD_set_ne _ _ _ _ _ (fun h => hk3 h.symm),
        getD_set_ne _ _ _ _ _ (fun h => hk2 h.symm),
        getD_set_ne _ _ _ _ _ (fun h => hk1 h.symm)]
  · -- solo, remove branch
    intro hcond
    unfold replaceOrRemoveCards
    rw [if_neg hcond]
    dsimp only
    unfold removeCards
    rw [hsorti]
    simp only [List.foldl_cons, List.foldl_nil]
    have e1 : (bC.eraseIdx i1).length = bC.length - 1 := length_eraseIdx_lt hi1
    have e2 : ((bC.eraseIdx i1).eraseIdx i2).length = bC.length - 2 := by
      rw [length_eraseIdx_lt (by omega), e1]
      omega
    have e3 : (((bC.eraseIdx i1).eraseIdx i2).eraseIdx i3).length = bC.length - 3 := by
      rw [length_eraseIdx_lt (by omega), e2]
      omega
    rw [e3]
    omega
  · -- multiplayer, all-replaced case
    rintro ⟨hb12, hp78⟩
    have t1 : claimStep deck (board, ptr) q1 =
        (board.set q1 (deck.getD ptr 0), ptr + 1) := by
      simp only [claimStep]
      rw [if_pos ⟨by omega, hb12⟩, jsArraySet_lt _ hq1]
    have t2 : claimStep deck (board.set q1 (deck.getD ptr 0), ptr + 1) q2 =
        ((board.set q1 (deck.getD ptr 0)).set q2 (deck.getD (ptr + 1) 0),
          ptr + 2) := by
      simp only [claimStep]
      rw [if_pos ⟨by omega, by simp [hb12]⟩, jsArraySet_lt _ (by simp; omega)]
    have t3 : claimStep deck
        ((board.set q1 (deck.getD ptr 0)).set q2 (deck.getD (ptr + 1) 0),
          ptr + 2) q3 =
        (((board.set q1 (deck.getD ptr 0)).set q2
            (deck.getD (ptr + 1) 0)).set q3 (deck.getD (ptr + 2) 0),
          ptr + 3) := by
      simp only [claimStep]
      rw [if_pos ⟨by omega, by simp [hb12]⟩, jsArraySet_lt _ (by simp; omega)]
    have hfold : claimUpdateBoard deck [q1, q2, q3] board ptr =
        (((board.set q1 (deck.getD ptr 0)).set q2
            (deck.getD (ptr + 1) 0)).set q3 (deck.getD (ptr + 2) 0),
          ptr + 3) := by
      unfold claimUpdateBoard
      rw [hsortq]
      simp only [List.foldl_cons, List.foldl_nil]
      rw [t1, t2, t3]
    rw [hfold]
    dsimp only
    refine ⟨by simp, rfl, ?_, ?_, ?_, ?_⟩
    · rw [getD_set_ne _ _ _ _ _ (by omega), getD_set_ne _ _ _ _ _ (by omega),
        getD_set_self _ _ _ _ hq1]
    · rw [getD_set_ne _ _ _ _ _ (by omega),
        getD_set_self _ _ _ _ (by simp; omega)]
    · rw [getD_set_self _ _ _ _ (by simp; omega)]
    · intro k hk1 hk2 hk3
      rw [getD_set_ne _ _ _ _ _ (fun h => hk3 h.symm),
        getD_set_ne _ _ _ _ _ (fun h => hk2 h.symm),
        getD_set_ne _ _ _ _ _ (fun h => hk1 h.symm)]
  · -- multiplayer, all-removed case
    intro hcase
    have e1 : (board.eraseIdx q1).length = board.length - 1 := length_eraseIdx_lt hq1
    have e2 : ((board.eraseIdx q1).eraseIdx q2).length = board.length - 2 := by
      rw [length_eraseIdx_lt (by omega), e1]
      omega
    have e3 : (((board.eraseIdx q1).eraseIdx q2).eraseIdx q3).length =
        board.length - 3 := by
      rw [length_eraseIdx_lt (by omega), e2]
      omega
    have u1 : claimStep deck (board, ptr) q1 = (board.eraseIdx q1, ptr) := by
      simp only [claimStep]
      rw [if_neg (by rintro ⟨ha, hb⟩; rcases hcase with hc | hc <;> omega)]
    have u2 : claimStep deck (board.eraseIdx q1, ptr) q2 =
        ((board.eraseIdx q1).eraseIdx q2, ptr) := by
      simp only [claimStep]
      rw [if_neg (by rintro ⟨ha, hb⟩; rw [e1] at hb; rcases hcase with hc | hc <;> omega)]
    have u3 : claimStep deck ((board.eraseIdx q1).eraseIdx q2, ptr) q3 =
        (((board.eraseIdx q1).eraseIdx q2).eraseIdx q3, ptr) := by
      simp only [claimStep]
      rw [if_neg (by rintro ⟨ha, hb⟩; rw [e2] at hb; rcases hcase with hc | hc <;> omega)]
    have hfold : claimUpdateBoard deck [q1, q2, q3] board ptr =
        (((board.eraseIdx q1).eraseIdx q2).eraseIdx q3, ptr) := by
      unfold claimUpdateBoard
      rw [hsortq]
      simp only [List.foldl_cons, List.foldl_nil]
      rw [u1, u2, u3]
    rw [hfold]
    dsimp only
    rw [e3]
    exact ⟨by omega, rfl⟩

/-- Witness for the amended C2 at concrete boards: a 12-card solo board
with a 3-card deck keeps length 12 after replacement, and the
multiplayer loop on a 12-card board with pointer 0 advances the pointer
to 3 (all three replaced in place). -/
theorem replace_remove_policy_amended_witness :
    (replaceOrRemoveCards (createDeck.take 12) ((createDeck.drop 12).take 3)
      [2, 1, 0]).1.length = 12 ∧
    (claimUpdateBoard (List.range 81) [2, 1, 0] (List.range 12) 0).2 = 3 := by
  have h := replace_remove_policy_amended (createDeck.take 12)
    ((createDeck.drop 12).take 3) 2 1 0 (by decide) (by decide) (by decide)
    (List.range 81) (List.range 12) 0 2 1 0 (by decide) (by decide) (by decide)
  obtain ⟨⟨hs, -⟩, hm, -⟩ := h
  have hs' := hs ⟨by decide, by decide⟩
  have hm' := hm ⟨by decide, by decide⟩
  exact ⟨by rw [hs'.1]; decide, hm'.2.1⟩

/-! ## The shared record invariant (C4) -/

theorem take_subset_take {l : List Nat} {i j : Nat} (h : i ≤ j) :
    ∀ x ∈ l.take i, x ∈ l.take j := by
  intro x hx
  have heq : l.take i = (l.take j).take i := by
    rw [List.take_take, min_eq_left h]
  rw [heq] at hx
  exact List.take_subset _ _ hx

theorem nodup_set {α : Type} {l : List α} (h : l.Nodup) :
    ∀ {pos : Nat} {v : α}, v ∉ l → (l.set pos v).Nodup := by
  induction l with
  | nil =>
    intro pos v _
    simp
  | cons x xs ih =>
    intro pos v hv
    rw [List.nodup_cons] at h
    match pos with
    | 0 =>
      rw [List.set_cons_zero, List.nodup_cons]
      exact ⟨fun hm => hv (List.mem_cons_of_mem x hm), h.2⟩
    | pos + 1 =>
      rw [List.set_cons_succ, List.nodup_cons]
      refine ⟨?_, ih h.2 (fun hm => hv (List.mem_cons_of_mem x hm))⟩
      intro hmem
      rcases List.mem_or_eq_of_mem_set hmem with hm | hm
      · exact h.1 hm
      · exact hv (hm ▸ List.mem_cons_self x xs)

theorem take_drop_disjoint {deck : List Nat} (hnd : deck.Nodup) (ptr : Nat) :
    ∀ x ∈ deck.take ptr, x ∉ deck.drop ptr := by
  have h := hnd
  rw [← List.take_append_drop ptr deck, List.nodup_append] at h
  exact fun x hx hx' => h.2.2 hx hx'

theorem getD_not_mem_take {deck : List Nat} (hnd : deck.Nodup) {ptr : Nat}
    (hp : ptr < deck.length) (d : Nat) : deck.getD ptr d ∉ deck.take ptr := by
  intro hmem
  apply take_drop_disjoint hnd ptr _ hmem
  rw [List.getD_eq_getElem _ _ hp, ← List.getElem_cons_drop deck ptr hp]
  exact List.mem_cons_self _ _

theorem mem_jsArraySet {l : List Nat} {pos v x : Nat}
    (h : x ∈ jsArraySet l pos v) : x ∈ l ∨ x = v := by
  unfold jsArraySet at h
  split at h
  · rcases List.mem_append.mp h with h' | h'
    · exact Or.inl h'
    · exact Or.inr (by simpa using h')
  · exact List.mem_or_eq_of_mem_set h

theorem nodup_jsArraySet {l : List Nat} {pos v : Nat} (h : l.Nodup)
    (hv : v ∉ l) : (jsArraySet l pos v).Nodup := by
  unfold jsArraySet
  split
  · rw [List.nodup_append]
    refine ⟨h, List.nodup_singleton v, ?_⟩
    intro x hx hx'
    have hxe : x = v := by simpa using hx'
    exact hv (hxe ▸ hx)
  · exact nodup_set h hv

theorem claimUpdate_loop_inv (deck : List Nat) (hnd : deck.Nodup)
    (hlen : deck.length = 81) :
    ∀ (ps : List Nat) (b : List Nat) (ptr : Nat), b.Nodup →
      (∀ x ∈ b, x ∈ deck.take ptr) →
      ((ps.foldl (claimStep deck) (b, ptr)).1.Nodup ∧
       (∀ x ∈ (ps.foldl (claimStep deck) (b, ptr)).1,
          x ∈ deck.take (ps.foldl (claimStep deck) (b, ptr)).2) ∧
       ptr ≤ (ps.foldl (claimStep deck) (b, ptr)).2) := by
  intro ps
  induction ps with
  | nil =>
    intro b ptr hb hmem
    exact ⟨hb, hmem, le_refl _⟩
  | cons p ps ih =>
    intro b ptr hb hmem
    rw [List.foldl_cons]
    by_cases hcond : ptr < 81 ∧ b.length ≤ 12
    · have hstep : claimStep deck (b, ptr) p =
          (jsArraySet b p (deck.getD ptr 0), ptr + 1) := by
        simp only [claimStep]
        rw [if_pos hcond]
      rw [hstep]
      have hp81 : ptr < deck.length := by omega
      have hfresh : deck.getD ptr 0 ∉ b :=
        fun hmem' => getD_not_mem_take hnd hp81 0 (hmem _ hmem')
      have hb' : (jsArraySet b p (deck.getD ptr 0)).Nodup :=
        nodup_jsArraySet hb hfresh
      have hmem' : ∀ x ∈ jsArraySet b p (deck.getD ptr 0),
          x ∈ deck.take (ptr + 1) := by
        intro x hx
        rcases mem_jsArraySet hx with h' | h'
        · exact take_subset_take (Nat.le_succ ptr) x (hmem x h')
        · rw [h', List.take_succ]
          apply List.mem_append_right
          rw [List.getElem?_eq_getElem hp81, List.getD_eq_getElem _ _ hp81]
          exact List.mem_cons_self _ _
      obtain ⟨ha, hb2, hc⟩ := ih _ _ hb' hmem'
      exact ⟨ha, hb2, le_trans (Nat.le_succ ptr) hc⟩
    · have hstep : claimStep deck (b, ptr) p = (b.eraseIdx p, ptr) := by
        simp only [claimStep]
        rw [if_neg hcond]
      rw [hstep]
      have hb' : (b.eraseIdx p).Nodup :=
        List.Nodup.sublist (List.eraseIdx_sublist b p) hb
      have hmem' : ∀ x ∈ b.eraseIdx p, x ∈ deck.take ptr :=
        fun x hx => hmem x ((List.eraseIdx_sublist b p).subset hx)
      exact ih _ _ hb' hmem'

theorem dealThree_inv (deck : List Nat) (hnd : deck.Nodup) (b : List Nat)
    (ptr : Nat) (hb : b.Nodup) (hmem : ∀ x ∈ b, x ∈ deck.take ptr) :
    ((dealThree deck b ptr).1.Nodup ∧
     (∀ x ∈ (dealThree deck b ptr).1, x ∈ deck.take (dealThree deck b ptr).2) ∧
     ptr ≤ (dealThree deck b ptr).2) := by
  unfold dealThree
  dsimp only
  have hslice : ∀ x ∈ (deck.drop ptr).take (min 3 (81 - ptr)), x ∈ deck.drop ptr :=
    fun x hx => List.take_subset _ _ hx
  refine ⟨?_, ?_, Nat.le_add_right _ _⟩
  · rw [List.nodup_append]
    refine ⟨hb, ?_, ?_⟩
    · exact List.Nodup.sublist
        ((List.take_sublist _ _).trans (List.drop_sublist _ _)) hnd
    · intro x hx hx'
      exact take_drop_disjoint hnd ptr x (hmem x hx) (hslice x hx')
  · intro x hx
    rw [List.take_add]
    rcases List.mem_append.mp hx with h' | h'
    · exact List.mem_append_left _ (hmem x h')
    · exact List.mem_append_right _ h'

theorem dealUntilSet_take (deck : List Nat) :
    ∀ (fuel : Nat) (b : List Nat) (ptr : Nat), b = deck.take ptr →
      ((dealUntilSet deck fuel b ptr).1 =
        deck.take (dealUntilSet deck fuel b ptr).2 ∧
       ptr ≤ (dealUntilSet deck fuel b ptr).2) := by
  intro fuel
  induction fuel with
  | zero =>
    intro b ptr hb
    exact ⟨hb, le_refl _⟩
  | succ fuel ih =>
    intro b ptr hb
    simp only [dealUntilSet]
    split
    · have hb' : b ++ (deck.drop ptr).take (min 3 (81 - ptr)) =
          deck.take (ptr + min 3 (81 - ptr)) := by
        rw [hb, ← List.take_add]
      obtain ⟨h1, h2⟩ := ih _ _ hb'
      exact ⟨h1, le_trans (Nat.le_add_right _ _) h2⟩
    · exact ⟨hb, le_refl _⟩

/-- C4: the shared-record invariant — the board is a duplicate-free
subset of `shuffledIndices[0..deckPointer)`, and `deckPointer` never
decreases — holds for the record game creation produces, and is
preserved by every commit of the claim transform and of the
replenish-only transform, given a starting record satisfying it whose
`shuffledIndices` is a permutation of 0–80. -/
theorem game_invariant_preserved (deck : List Nat)
    (hdeck : deck.Perm (List.range 81)) (hostId hostName : String) (mp : Nat)
    (g : Game) (hg : g.shuffledIndices.Perm (List.range 81))
    (hinv : GameInv g) :
    GameInv (createGameState deck hostId hostName mp) ∧
    (∀ pid p1 p2 p3 now g', claimTransform pid p1 p2 p3 now g = some g' →
      GameInv g' ∧ g.deckPointer ≤ g'.deckPointer ∧
      g'.shuffledIndices = g.shuffledIndices) ∧
    (∀ g', ensureSetOnBoardTransform g = some g' →
      GameInv g' ∧ g.deckPointer ≤ g'.deckPointer ∧
      g'.shuffledIndices = g.shuffledIndices) := by
  have hdnd : deck.Nodup := (hdeck.nodup_iff).mpr (List.nodup_range 81)
  have hgnd : g.shuffledIndices.Nodup := (hg.nodup_iff).mpr (List.nodup_range 81)
  have hglen : g.shuffledIndices.length = 81 := by
    rw [hg.length_eq, List.length_range]
  refine ⟨?_, ?_, ?_⟩
  · obtain ⟨h1, h2⟩ := dealUntilSet_take deck 81 (deck.take 12) 12 rfl
    constructor
    · show (dealUntilSet deck 81 (deck.take 12) 12).1.Nodup
      rw [h1]
      exact List.Nodup.sublist (List.take_sublist _ _) hdnd
    · show ∀ x ∈ (dealUntilSet deck 81 (deck.take 12) 12).1,
        x ∈ deck.take (dealUntilSet deck 81 (deck.take 12) 12).2
      intro x hx
      rw [h1] at hx
      exact hx
  · intro pid p1 p2 p3 now g' hc
    obtain ⟨hLnd, hLmem, hLle⟩ := claimUpdate_loop_inv g.shuffledIndices hgnd
      hglen (sortDesc [p1, p2, p3]) g.board g.deckPointer hinv.1 hinv.2
    obtain ⟨hDnd, hDmem, hDle⟩ := dealThree_inv g.shuffledIndices hgnd
      (claimUpdateBoard g.shuffledIndices [p1, p2, p3] g.board g.deckPointer).1
      (claimUpdateBoard g.shuffledIndices [p1, p2, p3] g.board g.deckPointer).2
      hLnd hLmem
    unfold claimTransform at hc
    split_ifs at hc
    rw [Option.some_inj] at hc
    split at hc <;> split at hc <;> rw [← hc]
    · exact ⟨⟨hDnd, hDmem⟩, le_trans hLle hDle, rfl⟩
    · exact ⟨⟨hDnd, hDmem⟩, le_trans hLle hDle, rfl⟩
    · exact ⟨⟨hLnd, hLmem⟩, hLle, rfl⟩
    · exact ⟨⟨hLnd, hLmem⟩, hLle, rfl⟩
  · intro g' hc
    obtain ⟨hDnd, hDmem, hDle⟩ := dealThree_inv g.shuffledIndices hgnd g.board
      g.deckPointer hinv.1 hinv.2
    unfold ensureSetOnBoardTransform at hc
    split_ifs at hc
    rw [Option.some_inj] at hc
    rw [← hc]
    exact ⟨⟨hDnd, hDmem⟩, hDle, rfl⟩

/-- Witness for C4: the record created from the identity permutation of
0–80 satisfies the invariant (applied with the concrete playing record
`gameA`, whose invariant is discharged by evaluation). -/
theorem game_invariant_preserved_witness :
    GameInv (createGameState (List.range 81) "h" "H" 4) :=
  (game_invariant_preserved (List.range 81) (List.Perm.refl _) "h" "H" 4
    gameA (List.Perm.refl _) ⟨by decide, by decide⟩).1

end SetTools
